import Mathlib

/-!
Shallow embedding of the claim-resolution and session-assembly core of
`pkg/providers/util/claim_extractor.go` and the `providers` package
`ProviderData` helpers (`buildSessionFromClaims`, `checkNonce`,
`GetClientSecret`).

Claim values are arbitrary decoded JSON values; Go represents them as
`interface\x7b\x7d` holding `nil`, `bool`, `float64`, `string`,
`[]interface\x7b\x7d` or `map[string]interface\x7b\x7d`.  We model them with
the sum type `JValue`; JSON numbers are modelled on the integer-valued
subset of `float64` (an `Int`, printed in decimal exactly as
`strconv.FormatFloat(_, \x27f\x27, -1, 64)` prints an integral float).
Go maps are modelled as association lists without duplicate keys; map
iteration for marshalling sorts keys, as `encoding/json` does.
The external world (the profile endpoint, the file system) is passed in as
an explicit environment, and every extractor operation additionally reports
how many network fetches it issued.
-/

/-- Decoded JSON claim value (the shapes `encoding/json` produces for
`interface\x7b\x7d`), with numbers restricted to the integral subset. -/
inductive JValue where
  | null : JValue
  | bool : Bool → JValue
  | num : Int → JValue
  | str : String → JValue
  | arr : List JValue → JValue
  | obj : List (String × JValue) → JValue

/-- Go map lookup on an association-list model of `map[string]interface\x7b\x7d`
(first binding wins; decoded JSON objects have no duplicate keys). -/
def lookupClaim : List (String × JValue) → String → Option JValue
  | [], _ => none
  | (k, v) :: rest, name => if k = name then some v else lookupClaim rest name

/-- Decimal digit character, as produced by Go integer formatting. -/
def digitChar (n : Nat) : Char := Char.ofNat (48 + n)

/-- Decimal representation of a natural number, most significant digit
first, no leading zeros (Go `strconv` formatting). -/
def natChars (n : Nat) : List Char :=
  if _h : n < 10 then [digitChar n]
  else natChars (n / 10) ++ [digitChar (n % 10)]
termination_by n
decreasing_by exact Nat.div_lt_self (by omega) (by omega)

/-- Decimal representation of an integer (Go formatting of an integral
`float64` via `strconv.FormatFloat(_, \x27f\x27, -1, 64)`). -/
def intChars (n : Int) : List Char :=
  if n < 0 then '-' :: natChars n.natAbs else natChars n.toNat

/-- Lowercase hexadecimal digit (Go `encoding/json` uses lowercase hex in
`\u` escapes). -/
def hexChar (n : Nat) : Char :=
  if n < 10 then Char.ofNat (48 + n) else Char.ofNat (87 + n)

/-- Four lowercase hex digits of a code point below 0x10000. -/
def hex4 (n : Nat) : List Char :=
  [hexChar (n / 4096 % 16), hexChar (n / 256 % 16), hexChar (n / 16 % 16), hexChar (n % 16)]

/-- Left brace character (written via its code point). -/
def lbrace : Char := Char.ofNat 123

/-- Right brace character (written via its code point). -/
def rbrace : Char := Char.ofNat 125

/-- Escaping of one character inside a JSON string literal, following Go
`encoding/json` with its default HTML escaping: `"`, `\`, newline, carriage
return and tab get two-character escapes; other control characters, `<`,
`>`, `&`, U+2028 and U+2029 get `\u` escapes; everything else is emitted
raw. -/
def escChar (c : Char) : List Char :=
  if c = '"' then ['\\', '"']
  else if c = '\\' then ['\\', '\\']
  else if c = '\n' then ['\\', 'n']
  else if c = '\r' then ['\\', 'r']
  else if c = '\t' then ['\\', 't']
  else if c.toNat < 32 ∨ c = '<' ∨ c = '>' ∨ c = '&' ∨ c.toNat = 8232 ∨ c.toNat = 8233 then
    '\\' :: 'u' :: hex4 c.toNat
  else [c]

/-- Escaping of a whole character sequence. -/
def escString : List Char → List Char
  | [] => []
  | c :: cs => escChar c ++ escString cs

/-- Printed form of a JSON string literal including the quotes. -/
def keyChars (k : String) : List Char := '"' :: (escString k.data ++ ['"'])

/-- Characters of the `null` literal. -/
def nullChars : List Char := "null".data

/-- Characters of the `true` literal. -/
def trueChars : List Char := "true".data

/-- Characters of the `false` literal. -/
def falseChars : List Char := "false".data

/-- Key ordering used by `encoding/json` when marshalling a Go map: byte
order of the UTF-8 keys, which coincides with code-point order. -/
def keyLe (a b : String × JValue) : Prop := a.1 ≤ b.1

instance : DecidableRel keyLe := fun a b => inferInstanceAs (Decidable (a.1 ≤ b.1))

instance : IsTotal (String × JValue) keyLe := ⟨fun a b => le_total a.1 b.1⟩

instance : IsTrans (String × JValue) keyLe := ⟨fun _ _ _ h1 h2 => le_trans h1 h2⟩

mutual

/-- Canonical form of a JSON value: object fields are recursively put into
the sorted-key order in which `encoding/json` marshals Go maps. -/
def canon : JValue → JValue
  | .null => .null
  | .bool b => .bool b
  | .num n => .num n
  | .str s => .str s
  | .arr xs => .arr (canonList xs)
  | .obj fs => .obj (List.insertionSort keyLe (canonFields fs))

/-- Canonical form, mapped over array elements. -/
def canonList : List JValue → List JValue
  | [] => []
  | x :: xs => canon x :: canonList xs

/-- Canonical form, mapped over object field values (keys unchanged). -/
def canonFields : List (String × JValue) → List (String × JValue)
  | [] => []
  | (k, v) :: fs => (k, canon v) :: canonFields fs

end

mutual

/-- Compact JSON text of a canonical value, as `encoding/json.Marshal`
emits it (no whitespace, sorted map keys are the caller's responsibility
via `canon`). -/
def printChars : JValue → List Char
  | .null => nullChars
  | .bool true => trueChars
  | .bool false => falseChars
  | .num n => intChars n
  | .str s => '"' :: (escString s.data ++ ['"'])
  | .arr [] => ['[', ']']
  | .arr (x :: xs) => '[' :: (printElems (x :: xs) ++ [']'])
  | .obj [] => [lbrace, rbrace]
  | .obj (f :: fs) => lbrace :: (printMembers (f :: fs) ++ [rbrace])
termination_by v => sizeOf v

/-- Comma-separated printed array elements. -/
def printElems : List JValue → List Char
  | [] => []
  | [x] => printChars x
  | x :: y :: xs => printChars x ++ ',' :: printElems (y :: xs)
termination_by l => sizeOf l

/-- Comma-separated printed object members. -/
def printMembers : List (String × JValue) → List Char
  | [] => []
  | [(k, v)] => keyChars k ++ ':' :: printChars v
  | (k, v) :: f :: fs => keyChars k ++ ':' :: printChars v ++ ',' :: printMembers (f :: fs)
termination_by l => sizeOf l

end

/-- Model of Go `json.Marshal` on decoded JSON values: marshalling always
succeeds and produces the compact text of the canonical (map-keys-sorted)
form. -/
def jsonMarshal (v : JValue) : String := String.mk (printChars (canon v))

namespace Cast

/-- Model of `spf13/cast.ToStringE`: strings are returned unchanged, bools
and integral numbers get their canonical textual form, `nil` becomes the
empty string, and composite values (slices, maps) are rejected. -/
def ToStringE : JValue → Except String String
  | .str s => .ok s
  | .bool b => .ok (if b then "true" else "false")
  | .num n => .ok (String.mk (intChars n))
  | .null => .ok ""
  | .arr _ => .error "unable to cast value of this type to string"
  | .obj _ => .error "unable to cast value of this type to string"

/-- Model of `spf13/cast.ToBool`: `bool` is returned as is; the strings
accepted by `strconv.ParseBool` map to their value; every other shape
(including `nil`, numbers decoded as `float64`, slices and maps, and
unrecognised strings) yields `false` because `ToBool` swallows the
conversion error. -/
def ToBool : JValue → Bool
  | .bool b => b
  | .str s =>
    decide (s = "1" ∨ s = "t" ∨ s = "T" ∨ s = "TRUE" ∨ s = "true" ∨ s = "True")
  | _ => false

end Cast

namespace Util

/-- Model of `util.toString` (claim_extractor.go lines 150-160): try the
generic cast to string first, and fall back to the JSON text of the value.
`json.Marshal` cannot fail on a decoded JSON value, so the fallback always
succeeds. -/
def toString (value : JValue) : Except String String :=
  match Cast.ToStringE value with
  | .ok str => .ok str
  | .error _ => .ok (jsonMarshal value)

/-- Element loop of `util.toStringSlice`: convert each entry with
`toString`, aborting on the first failure. -/
def toStringSliceLoop : List JValue → Except String (List String)
  | [] => .ok []
  | v :: vs =>
    match Util.toString v with
    | .error e => .error ("could not convert slice entry to string: " ++ e)
    | .ok s =>
      match toStringSliceLoop vs with
      | .error e => .error e
      | .ok out => .ok (s :: out)

/-- Model of `util.toStringSlice` (claim_extractor.go lines 126-146).  The
Go type switch has three arms: a `[]interface\x7b\x7d` is used as is; any
other non-nil value (the `interface\x7b\x7d` case) is wrapped as a
one-element slice; a nil interface (decoded JSON `null`) falls to the
`default` arm, where `cast.ToSlice(nil)` produces an empty slice. -/
def toStringSlice (value : JValue) : Except String (List String) :=
  let sliceValues : List JValue :=
    match value with
    | .arr xs => xs
    | .null => []
    | v => [v]
  toStringSliceLoop sliceValues

/-- Closed set of destination shapes accepted by `util.coerceClaim`
(`*string`, `*[]string`, `*bool`), carrying the destination's current
value, plus the catch-all arm for any other pointer type. -/
inductive Dst where
  | str (s : String)
  | strList (l : List String)
  | bool (b : Bool)
  | unknown

/-- Current value of a string destination. -/
def Dst.getStr (d : Dst) (dflt : String) : String :=
  match d with
  | .str s => s
  | _ => dflt

/-- Current value of a string-slice destination. -/
def Dst.getStrList (d : Dst) (dflt : List String) : List String :=
  match d with
  | .strList l => l
  | _ => dflt

/-- Current value of a bool destination. -/
def Dst.getBool (d : Dst) (dflt : Bool) : Bool :=
  match d with
  | .bool b => b
  | _ => dflt

/-- Model of `util.coerceClaim` (claim_extractor.go lines 104-124):
dispatch on the destination shape; on success the destination holds the
converted value, on failure it is left unchanged by the caller. -/
def coerceClaim (value : JValue) (dst : Dst) : Except String Dst :=
  match dst with
  | .str _ =>
    match Util.toString value with
    | .error e => .error ("could not convert value to string: " ++ e)
    | .ok s => .ok (.str s)
  | .strList _ =>
    match toStringSlice value with
    | .error e => .error ("could not convert value to string slice: " ++ e)
    | .ok l => .ok (.strList l)
  | .bool _ => .ok (.bool (Cast.ToBool value))
  | .unknown => .error "unknown type for destination"

/-- Behaviour of the profile endpoint for this extractor instance: what one
authenticated fetch would return (a decoded claim mapping, or a
request/decoding failure). -/
abbrev ProfileFetch := Except String (List (String × JValue))

/-- Model of the `util.claimExtractor` struct (claim_extractor.go lines
34-40).  `ctx` is an opaque identifier for the carried request context;
`profileClaims = none` models the nil (not yet populated) map. -/
structure claimExtractor where
  profileURL : Option String
  ctx : Nat
  requestHeaders : Option (List (String × List String))
  tokenClaims : List (String × JValue)
  profileClaims : Option (List (String × JValue))

/-- Result of `getProfileClaims`, together with the number of network
requests the call issued. -/
structure FetchOut where
  result : Except String (List (String × JValue))
  fetches : Nat

/-- Model of `claimExtractor.getProfileClaims` (claim_extractor.go lines
67-87): with no profile URL or no request headers the profile is treated as
an empty (non-nil) claim mapping and no network request is made; otherwise
one request is issued and its failure is surfaced as an error. -/
def getProfileClaims (env : ProfileFetch) (c : claimExtractor) : FetchOut :=
  match c.profileURL, c.requestHeaders with
  | none, _ => ⟨.ok [], 0⟩
  | some _, none => ⟨.ok [], 0⟩
  | some _, some _ =>
    match env with
    | .ok claims => ⟨.ok claims, 1⟩
    | .error e => ⟨.error ("error making request to profile URL: " ++ e), 1⟩

/-- Result of `GetClaim`: the returned triple, the extractor state after
the call, and the number of network fetches issued by the call. -/
structure GetClaimOut where
  value : Option JValue
  found : Bool
  err : Option String
  ext : claimExtractor
  fetches : Nat

/-- Model of `claimExtractor.GetClaim` (claim_extractor.go lines 42-65). -/
def GetClaim (env : ProfileFetch) (c : claimExtractor) (claim : String) : GetClaimOut :=
  if claim = "" then ⟨none, false, none, c, 0⟩
  else
    match lookupClaim c.tokenClaims claim with
    | some value => ⟨some value, true, none, c, 0⟩
    | none =>
      match c.profileClaims with
      | none =>
        let f := getProfileClaims env c
        match f.result with
        | .error e =>
          ⟨none, false, some ("failed to fetch claims from profile URL: " ++ e), c, f.fetches⟩
        | .ok profileClaims =>
          let c' := { c with profileClaims := some profileClaims }
          match lookupClaim profileClaims claim with
          | some value => ⟨some value, true, none, c', f.fetches⟩
          | none => ⟨none, false, none, c', f.fetches⟩
      | some pc =>
        match lookupClaim pc claim with
        | some value => ⟨some value, true, none, c, 0⟩
        | none => ⟨none, false, none, c, 0⟩

/-- Result of `GetClaimInto`: the returned pair, the destination after the
call, the extractor state after the call, and the fetch count. -/
structure GetIntoOut where
  found : Bool
  err : Option String
  dst : Dst
  ext : claimExtractor
  fetches : Nat

/-- Model of `claimExtractor.GetClaimInto` (claim_extractor.go lines
89-102): look the claim up, and when it is found coerce it into the
caller's destination; on any error the destination is left unchanged. -/
def GetClaimInto (env : ProfileFetch) (c : claimExtractor) (claim : String) (dst : Dst) :
    GetIntoOut :=
  let g := GetClaim env c claim
  match g.err with
  | some e =>
    ⟨false, some ("could not get claim \"" ++ claim ++ "\": " ++ e), dst, g.ext, g.fetches⟩
  | none =>
    if g.found then
      match g.value with
      | some v =>
        match coerceClaim v dst with
        | .error e => ⟨false, some ("could no coerce claim: " ++ e), dst, g.ext, g.fetches⟩
        | .ok d => ⟨true, none, d, g.ext, g.fetches⟩
      | none => ⟨false, none, dst, g.ext, g.fetches⟩
    else ⟨false, none, dst, g.ext, g.fetches⟩

/-- One call against the extractor interface, for reasoning about call
sequences. -/
inductive CallSpec where
  | get (name : String)
  | getInto (name : String) (dst : Dst)

/-- Run a sequence of `GetClaim` / `GetClaimInto` calls against one
extractor instance, threading the state and summing the network fetches. -/
def runCalls (env : ProfileFetch) : claimExtractor → List CallSpec → claimExtractor × Nat
  | c, [] => (c, 0)
  | c, call :: rest =>
    let s :=
      match call with
      | .get name => let g := GetClaim env c name; (g.ext, g.fetches)
      | .getInto name d => let g := GetClaimInto env c name d; (g.ext, g.fetches)
    let r := runCalls env s.1 rest
    (r.1, s.2 + r.2)

end Util

namespace Sessions

/-- Model of the fields of `sessions.SessionState` that this core
populates (provider_data.go `buildSessionFromClaims`), plus the stored
login nonce consulted by `checkNonce`. -/
structure SessionState where
  User : String
  Email : String
  Groups : List String
  PreferredUsername : String
  Nonce : String

/-- Fresh `SessionState` with Go zero values. -/
def emptySession : SessionState := ⟨"", "", [], "", ""⟩

/-- Modelled from the spec: `sessions.SessionState.CheckNonce` lives
outside this repository slice; spec section 4.3 says the token's `nonce`
claim is compared "exactly against the session's stored value". -/
def SessionState.CheckNonce (s : SessionState) (nonce : String) : Bool :=
  s.Nonce == nonce

end Sessions

namespace Providers

/-- Standard OIDC email claim name (provider_data.go `OIDCEmailClaim`). -/
def OIDCEmailClaim : String := "email"

/-- Standard OIDC groups claim name (provider_data.go `OIDCGroupsClaim`). -/
def OIDCGroupsClaim : String := "groups"

/-- Model of the `providers.ProviderData` fields this core reads.  URLs are
kept opaque (only identity and presence matter); `none` models a nil
pointer or nil function. -/
structure ProviderData where
  ProfileURL : Option String
  ClientID : String
  ClientSecret : String
  ClientSecretFile : String
  AllowUnverifiedEmail : Bool
  EmailClaim : String
  GroupsClaim : String
  getAuthorizationHeaderFunc : Option (String → List (String × List String))

/-- Model of `ProviderData.getAuthorizationHeader` (provider_data.go lines
373-378): nil unless both the header function and a non-empty access token
are available. -/
def ProviderData.getAuthorizationHeader (p : ProviderData) (accessToken : String) :
    Option (List (String × List String)) :=
  match p.getAuthorizationHeaderFunc with
  | some f => if accessToken = "" then none else some (f accessToken)
  | none => none

/-- Model of `ProviderData.GetClientSecret` (provider_data.go lines
219-231).  The file system is an explicit environment mapping a file name
to its contents, `none` modelling any read failure; the failure is logged
internally and surfaced to the caller as a fixed generic error. -/
def ProviderData.GetClientSecret (p : ProviderData) (readFile : String → Option String) :
    Except String String :=
  if p.ClientSecret ≠ "" ∨ p.ClientSecretFile = "" then .ok p.ClientSecret
  else
    match readFile p.ClientSecretFile with
    | some fileClientSecret => .ok fileClientSecret
    | none => .error "could not read client secret file"

/-- Model of `ProviderData.getClaimExtractor` (provider_data.go lines
347-354) composed with `util.NewClaimExtractor`: the identity token's
claims are taken already decoded (the decode step cannot fail on a decoded
mapping), and the profile claims start out unpopulated. -/
def ProviderData.getClaimExtractor (p : ProviderData)
    (tokenClaims : List (String × JValue)) (accessToken : String) : Util.claimExtractor :=
  { profileURL := p.ProfileURL
    ctx := 0
    requestHeaders := p.getAuthorizationHeader accessToken
    tokenClaims := tokenClaims
    profileClaims := none }

/-- Model of `ProviderData.buildSessionFromClaims` (provider_data.go lines
306-345).  The identity token is `none` for a token-less flow, otherwise
its decoded claim mapping.  The Go source ranges over a four-entry map
literal in unspecified order; this model performs the four lookups in the
literal's written order, which coincides with every iteration order
whenever the four claim names are distinct. -/
def ProviderData.buildSessionFromClaims (p : ProviderData) (env : Util.ProfileFetch)
    (idTokenClaims : Option (List (String × JValue))) (accessToken : String) :
    Except String Sessions.SessionState :=
  match idTokenClaims with
  | none => .ok Sessions.emptySession
  | some tc =>
    let c0 := p.getClaimExtractor tc accessToken
    let r1 := Util.GetClaimInto env c0 "sub" (.str "")
    match r1.err with
    | some e => .error e
    | none =>
      let r2 := Util.GetClaimInto env r1.ext p.EmailClaim (.str "")
      match r2.err with
      | some e => .error e
      | none =>
        let r3 := Util.GetClaimInto env r2.ext p.GroupsClaim (.strList [])
        match r3.err with
        | some e => .error e
        | none =>
          let r4 := Util.GetClaimInto env r3.ext "preferred_username" (.str "")
          match r4.err with
          | some e => .error e
          | none =>
            let verifyEmail := (p.EmailClaim == OIDCEmailClaim) && !p.AllowUnverifiedEmail
            let r5 := Util.GetClaimInto env r4.ext "email_verified" (.bool false)
            match r5.err with
            | some e => .error e
            | none =>
              let ss : Sessions.SessionState :=
                { User := r1.dst.getStr ""
                  Email := r2.dst.getStr ""
                  Groups := r3.dst.getStrList []
                  PreferredUsername := r4.dst.getStr ""
                  Nonce := "" }
              if verifyEmail && r5.found && !(r5.dst.getBool false) then
                .error ("email in id_token (" ++ ss.Email ++ ") isn\x27t verified")
              else .ok ss

/-- Model of `ProviderData.checkNonce` (provider_data.go lines 357-371):
extract the token's `nonce` claim into a string (the extractor is built
with an empty access token, so no profile request headers are available)
and compare it with the session's stored nonce. -/
def ProviderData.checkNonce (p : ProviderData) (s : Sessions.SessionState)
    (env : Util.ProfileFetch) (idTokenClaims : List (String × JValue)) :
    Except String Unit :=
  let c := p.getClaimExtractor idTokenClaims ""
  let r := Util.GetClaimInto env c "nonce" (.str "")
  match r.err with
  | some e => .error ("could not extract nonce from ID Token: " ++ e)
  | none =>
    if s.CheckNonce (r.dst.getStr "") then .ok ()
    else .error "id_token nonce claim does not match the session nonce"

end Providers

/-- Value of a hexadecimal digit character, if it is one. -/
def parseHexDigit (c : Char) : Option Nat :=
  if '0' ≤ c ∧ c ≤ '9' then some (c.toNat - 48)
  else if 'a' ≤ c ∧ c ≤ 'f' then some (c.toNat - 87)
  else if 'A' ≤ c ∧ c ≤ 'F' then some (c.toNat - 55)
  else none

/-- Single-character JSON escapes and their values. -/
def unescSimple (e : Char) : Option Char :=
  if e = '"' then some '"'
  else if e = '\\' then some '\\'
  else if e = '/' then some '/'
  else if e = 'b' then some (Char.ofNat 8)
  else if e = 'f' then some (Char.ofNat 12)
  else if e = 'n' then some '\n'
  else if e = 'r' then some '\r'
  else if e = 't' then some '\t'
  else none

/-- Decoder for the remainder of a JSON string literal (the opening quote
already consumed): returns the decoded characters and the input after the
closing quote.  Handles the two-character escapes and `\uXXXX`. -/
def parseStringRest : List Char → Option (List Char × List Char)
  | [] => none
  | c :: rest =>
    if c = '"' then some ([], rest)
    else if c = '\\' then
      match rest with
      | [] => none
      | e :: rest' =>
        if e = 'u' then
          match rest' with
          | a :: b :: c2 :: d :: rest'' =>
            match parseHexDigit a, parseHexDigit b, parseHexDigit c2, parseHexDigit d with
            | some x, some y, some z, some w =>
              match parseStringRest rest'' with
              | some p => some (Char.ofNat (x * 4096 + y * 256 + z * 16 + w) :: p.1, p.2)
              | none => none
            | _, _, _, _ => none
          | _ => none
        else
          match unescSimple e with
          | some u =>
            match parseStringRest rest' with
            | some p => some (u :: p.1, p.2)
            | none => none
          | none => none
    else
      match parseStringRest rest with
      | some p => some (c :: p.1, p.2)
      | none => none
termination_by l => l.length
decreasing_by all_goals simp_arith [*]

/-- Whether the input starts with a decimal digit (used to delimit number
literals). -/
def digitStart : List Char → Bool
  | [] => false
  | c :: _ => c.isDigit

/-- Greedy decimal-digit accumulator of a JSON number decoder. -/
def parseNatGo (acc : Nat) : List Char → Nat × List Char
  | [] => (acc, [])
  | c :: rest =>
    if c.isDigit then parseNatGo (acc * 10 + (c.toNat - 48)) rest
    else (acc, c :: rest)


/-- Whether the input starts with the given character. -/
def headIs (l : List Char) (c : Char) : Bool :=
  match l with
  | c2 :: _ => c2 = c
  | [] => false

/-- Consume an expected literal character sequence from the front of the
input. -/
def dropLit : List Char → List Char → Option (List Char)
  | [], s => some s
  | c :: cs, s =>
    match s with
    | d :: ds => if d = c then dropLit cs ds else none
    | [] => none

mutual

/-- Fueled recursive-descent decoder for compact (whitespace-free) JSON
values, the form `jsonMarshal` emits; returns the decoded value and the
remaining input. -/
def parseValue : Nat → List Char → Option (JValue × List Char)
  | 0, _ => none
  | _ + 1, [] => none
  | fuel + 1, c :: rest =>
    if c = '"' then
      match parseStringRest rest with
      | some p => some (.str (String.mk p.1), p.2)
      | none => none
    else if c = '[' then
      if headIs rest ']' then some (.arr [], rest.tail)
      else
        match parseElems fuel rest with
        | some p => some (.arr p.1, p.2)
        | none => none
    else if c = lbrace then
      if headIs rest rbrace then some (.obj [], rest.tail)
      else
        match parseMembers fuel rest with
        | some p => some (.obj p.1, p.2)
        | none => none
    else if c = '-' then
      if digitStart rest then
        let p := parseNatGo 0 rest
        some (.num (-(p.1 : Int)), p.2)
      else none
    else if c.isDigit then
      let p := parseNatGo 0 (c :: rest)
      some (.num (p.1 : Int), p.2)
    else if c = 'n' then
      match dropLit ['u', 'l', 'l'] rest with
      | some r => some (.null, r)
      | none => none
    else if c = 't' then
      match dropLit ['r', 'u', 'e'] rest with
      | some r => some (.bool true, r)
      | none => none
    else if c = 'f' then
      match dropLit ['a', 'l', 's', 'e'] rest with
      | some r => some (.bool false, r)
      | none => none
    else none

/-- Decoder for a non-empty comma-separated element list followed by a
closing bracket. -/
def parseElems : Nat → List Char → Option (List JValue × List Char)
  | 0, _ => none
  | fuel + 1, s =>
    match parseValue fuel s with
    | none => none
    | some p =>
      match p.2 with
      | ',' :: r =>
        match parseElems fuel r with
        | some q => some (p.1 :: q.1, q.2)
        | none => none
      | ']' :: r => some ([p.1], r)
      | _ => none

/-- Decoder for a non-empty comma-separated member list followed by a
closing brace. -/
def parseMembers : Nat → List Char → Option (List (String × JValue) × List Char)
  | 0, _ => none
  | fuel + 1, s =>
    match s with
    | [] => none
    | c :: rest =>
      if c = '"' then
        match parseStringRest rest with
        | none => none
        | some kp =>
          match kp.2 with
          | [] => none
          | c2 :: r =>
            if c2 = ':' then
              match parseValue fuel r with
              | none => none
              | some vp =>
                match vp.2 with
                | [] => none
                | c3 :: r2 =>
                  if c3 = ',' then
                    match parseMembers fuel r2 with
                    | some q => some ((String.mk kp.1, vp.1) :: q.1, q.2)
                    | none => none
                  else if c3 = rbrace then some ([(String.mk kp.1, vp.1)], r2)
                  else none
            else none
      else none

end

/-- Model of a JSON decoder at the whole-document level: decode one value
and require the input to be fully consumed. -/
def jsonParse (s : String) : Option JValue :=
  match parseValue (s.data.length + 1) s.data with
  | some (v, []) => some v
  | _ => none

/-- Structural equivalence of JSON values: equality up to the order of
object fields (two values are equivalent when their canonical forms
coincide). -/
def jEquiv (a b : JValue) : Prop := canon a = canon b

/-! Helper functions and lemmas about the coercion layer. -/

/-- Total string form of a claim value (the string `util.toString` always
succeeds with on a decoded JSON value). -/
def toStr (v : JValue) : String :=
  match Util.toString v with
  | .ok s => s
  | .error _ => ""

/-- Total string-slice form of a claim value. -/
def toStrList (v : JValue) : List String :=
  match v with
  | .arr xs => xs.map toStr
  | .null => []
  | v => [toStr v]

theorem toString_eq (v : JValue) : Util.toString v = .ok (toStr v) := by
  cases v <;> rfl

theorem toStringSliceLoop_eq (xs : List JValue) :
    Util.toStringSliceLoop xs = .ok (xs.map toStr) := by
  induction xs with
  | nil => rfl
  | cons x xs ih =>
    simp only [Util.toStringSliceLoop, toString_eq, ih, List.map]

theorem toStringSlice_eq (v : JValue) : Util.toStringSlice v = .ok (toStrList v) := by
  cases v <;> simp only [Util.toStringSlice, toStrList, toStringSliceLoop_eq, List.map]

/-- Value a claim lookup writes into a string destination (empty string if
the claim is missing). -/
def resolveStr (tc : List (String × JValue)) (name : String) : String :=
  match lookupClaim tc name with
  | some v => toStr v
  | none => ""

/-- Value a claim lookup writes into a string-slice destination. -/
def resolveStrList (tc : List (String × JValue)) (name : String) : List String :=
  match lookupClaim tc name with
  | some v => toStrList v
  | none => []

/-- Value a claim lookup writes into a bool destination. -/
def resolveBool (tc : List (String × JValue)) (name : String) : Bool :=
  match lookupClaim tc name with
  | some v => Cast.ToBool v
  | none => false

/-- Destination state after a lookup result is coerced into it (unchanged
on a miss). -/
def newDst (d : Util.Dst) : Option JValue → Util.Dst
  | none => d
  | some v =>
    match d with
    | .str _ => .str (toStr v)
    | .strList _ => .strList (toStrList v)
    | .bool _ => .bool (Cast.ToBool v)
    | .unknown => d

theorem coerceClaim_eq (v : JValue) (d : Util.Dst) (hd : d ≠ .unknown) :
    Util.coerceClaim v d = .ok (newDst d (some v)) := by
  cases d with
  | str s => simp only [Util.coerceClaim, toString_eq, newDst]
  | strList l => simp only [Util.coerceClaim, toStringSlice_eq, newDst]
  | bool b => simp only [Util.coerceClaim, newDst]
  | unknown => exact absurd rfl hd

/-! Helper lemmas about the extractor state machine. -/

namespace Util

/-- Extractor after its profile claim set is populated with the empty
mapping. -/
def popEmpty (c : claimExtractor) : claimExtractor :=
  { c with profileClaims := some [] }

theorem getProfileClaims_skip (env : ProfileFetch) (c : claimExtractor)
    (h : c.profileURL = none ∨ c.requestHeaders = none) :
    getProfileClaims env c = ⟨.ok [], 0⟩ := by
  rcases h with h | h <;> rcases hu : c.profileURL with _ | u <;>
    rcases hh : c.requestHeaders with _ | hs <;>
    simp_all [getProfileClaims]

theorem GetClaim_empty (env : ProfileFetch) (c : claimExtractor) :
    GetClaim env c "" = ⟨none, false, none, c, 0⟩ := rfl

theorem GetClaim_token_hit (env : ProfileFetch) (c : claimExtractor) (name : String)
    (v : JValue) (hname : name ≠ "") (hv : lookupClaim c.tokenClaims name = some v) :
    GetClaim env c name = ⟨some v, true, none, c, 0⟩ := by
  simp only [GetClaim, if_neg hname, hv]

end Util
namespace Util

theorem GetClaim_ext_cases (env : ProfileFetch) (c : claimExtractor) (name : String) :
    (GetClaim env c name).ext = c ∨
      (c.profileClaims = none ∧
        ∃ m, (GetClaim env c name).ext = { c with profileClaims := some m }) := by
  unfold GetClaim
  split
  · exact Or.inl rfl
  · split
    · exact Or.inl rfl
    · split
      · rename_i hpc
        rcases hgp : getProfileClaims env c with ⟨res, k⟩
        rcases res with e | pm2
        · simp [hgp]
        · simp only [hgp]
          split
          · exact Or.inr ⟨hpc, _, rfl⟩
          · exact Or.inr ⟨hpc, _, rfl⟩
      · split
        · exact Or.inl rfl
        · exact Or.inl rfl

theorem GetClaim_populated (env : ProfileFetch) (c : claimExtractor) (name : String)
    (pm : List (String × JValue)) (h : c.profileClaims = some pm) :
    (GetClaim env c name).ext = c ∧ (GetClaim env c name).fetches = 0 := by
  unfold GetClaim
  split
  · exact ⟨rfl, rfl⟩
  · split
    · exact ⟨rfl, rfl⟩
    · simp only [h]
      split
      · exact ⟨rfl, rfl⟩
      · exact ⟨rfl, rfl⟩

theorem GetClaimInto_ext_fetches (env : ProfileFetch) (c : claimExtractor) (name : String)
    (d : Dst) :
    (GetClaimInto env c name d).ext = (GetClaim env c name).ext ∧
      (GetClaimInto env c name d).fetches = (GetClaim env c name).fetches := by
  rcases hg : GetClaim env c name with ⟨v, fnd, er, ext, k⟩
  unfold GetClaimInto
  rw [hg]
  rcases er with _ | e
  · rcases fnd
    · exact ⟨rfl, rfl⟩
    · rcases v with _ | v
      · exact ⟨rfl, rfl⟩
      · rcases hc : coerceClaim v d with e2 | d2 <;> simp [hc]
  · exact ⟨rfl, rfl⟩

/-- One when the profile claim set is still unpopulated, zero once it is
populated: the number of fetches any future behaviour can still issue under
a successful fetch environment. -/
def potential (c : claimExtractor) : Nat :=
  match c.profileClaims with
  | some _ => 0
  | none => 1

theorem getProfileClaims_okEnv (m : List (String × JValue)) (c : claimExtractor) :
    ∃ pm k, getProfileClaims (.ok m) c = ⟨.ok pm, k⟩ ∧ (k = 0 ∨ k = 1) := by
  unfold getProfileClaims
  rcases c.profileURL with _ | u
  · exact ⟨[], 0, rfl, Or.inl rfl⟩
  · rcases c.requestHeaders with _ | hs
    · exact ⟨[], 0, rfl, Or.inl rfl⟩
    · exact ⟨m, 1, rfl, Or.inr rfl⟩

theorem GetClaim_okEnv_cases (m : List (String × JValue)) (c : claimExtractor)
    (name : String) :
    (GetClaim (.ok m) c name).fetches = 0 ∨
      ((GetClaim (.ok m) c name).fetches = 1 ∧ c.profileClaims = none ∧
        ∃ pm2, (GetClaim (.ok m) c name).ext.profileClaims = some pm2) := by
  obtain ⟨pm, k, hgp, hk⟩ := getProfileClaims_okEnv m c
  unfold GetClaim
  split
  · exact Or.inl rfl
  · split
    · exact Or.inl rfl
    · split
      · rename_i hpc
        simp only [hgp]
        rcases hk with hk | hk <;> subst hk
        · split
          · exact Or.inl rfl
          · exact Or.inl rfl
        · split
          · exact Or.inr ⟨rfl, hpc, pm, rfl⟩
          · exact Or.inr ⟨rfl, hpc, pm, rfl⟩
      · split
        · exact Or.inl rfl
        · exact Or.inl rfl

theorem GetClaim_step_ok (m : List (String × JValue)) (c : claimExtractor) (name : String) :
    (GetClaim (.ok m) c name).fetches + potential (GetClaim (.ok m) c name).ext ≤
      potential c := by
  rcases GetClaim_okEnv_cases m c name with h0 | ⟨h1, hpc, pm2, hext⟩
  · rw [h0]
    rcases GetClaim_ext_cases (.ok m) c name with he | ⟨_, m2, he⟩
    · rw [he]
      omega
    · rw [he]
      have hz : potential { c with profileClaims := some m2 } = 0 := rfl
      rw [hz]
      omega
  · rw [h1]
    have hpotc : potential c = 1 := by unfold potential; rw [hpc]
    have hpote : potential (GetClaim (.ok m) c name).ext = 0 := by unfold potential; rw [hext]
    omega

theorem runCalls_populated (env : ProfileFetch) (calls : List CallSpec) :
    ∀ c pm, c.profileClaims = some pm → runCalls env c calls = (c, 0) := by
  induction calls with
  | nil => intro c pm _; rfl
  | cons call rest ih =>
    intro c pm h
    unfold runCalls
    rcases call with name | ⟨name, d⟩
    · have h1 := GetClaim_populated env c name pm h
      dsimp only
      rw [h1.1, h1.2, ih c pm h]
      rfl
    · have h2 := GetClaimInto_ext_fetches env c name d
      have h1 := GetClaim_populated env c name pm h
      dsimp only
      rw [h2.1, h2.2, h1.1, h1.2, ih c pm h]
      rfl

theorem runCalls_fetches_ok (m : List (String × JValue)) (calls : List CallSpec) :
    ∀ c, (runCalls (.ok m) c calls).2 +
      potential (runCalls (.ok m) c calls).1 ≤ potential c := by
  induction calls with
  | nil => intro c; simp [runCalls]
  | cons call rest ih =>
    intro c
    unfold runCalls
    rcases call with name | ⟨name, d⟩
    · have hstep := GetClaim_step_ok m c name
      have hrec := ih (GetClaim (.ok m) c name).ext
      dsimp only
      omega
    · have hd := GetClaimInto_ext_fetches (.ok m) c name d
      have hstep := GetClaim_step_ok m c name
      have hrec := ih (GetClaimInto (.ok m) c name d).ext
      rw [hd.1] at hrec
      dsimp only
      rw [hd.1, hd.2]
      omega

theorem potential_le_one (c : claimExtractor) : potential c ≤ 1 := by
  unfold potential
  split <;> omega

end Util

namespace Util

theorem GetClaim_noProfile (env : ProfileFetch) (c : claimExtractor) (name : String)
    (hurl : c.profileURL = none)
    (hpc : c.profileClaims = none ∨ c.profileClaims = some [])
    (hname : name ≠ "") :
    ∃ c', GetClaim env c name =
        ⟨lookupClaim c.tokenClaims name, (lookupClaim c.tokenClaims name).isSome,
          none, c', 0⟩ ∧
      c'.profileURL = none ∧ c'.tokenClaims = c.tokenClaims ∧
      (c'.profileClaims = none ∨ c'.profileClaims = some []) ∧
      c'.requestHeaders = c.requestHeaders ∧ c'.ctx = c.ctx := by
  unfold GetClaim
  rw [if_neg hname]
  rcases hlk : lookupClaim c.tokenClaims name with _ | v
  · rcases hpc with hpc | hpc
    · simp only [hpc, getProfileClaims_skip env c (Or.inl hurl)]
      exact ⟨{ c with profileClaims := some [] }, rfl, hurl, rfl, Or.inr rfl, rfl, rfl⟩
    · simp only [hpc]
      exact ⟨c, rfl, hurl, rfl, Or.inr hpc, rfl, rfl⟩
  · exact ⟨c, rfl, hurl, rfl, hpc, rfl, rfl⟩

theorem GetClaimInto_noProfile (env : ProfileFetch) (c : claimExtractor) (name : String)
    (d : Dst) (hurl : c.profileURL = none)
    (hpc : c.profileClaims = none ∨ c.profileClaims = some [])
    (hname : name ≠ "") (hd : d ≠ .unknown) :
    ∃ c', GetClaimInto env c name d =
        ⟨(lookupClaim c.tokenClaims name).isSome, none,
          newDst d (lookupClaim c.tokenClaims name), c', 0⟩ ∧
      c'.profileURL = none ∧ c'.tokenClaims = c.tokenClaims ∧
      (c'.profileClaims = none ∨ c'.profileClaims = some []) ∧
      c'.requestHeaders = c.requestHeaders ∧ c'.ctx = c.ctx := by
  obtain ⟨c', hg, hu, ht, hp, hh, hx⟩ := GetClaim_noProfile env c name hurl hpc hname
  refine ⟨c', ?_, hu, ht, hp, hh, hx⟩
  unfold GetClaimInto
  rw [hg]
  rcases hlk : lookupClaim c.tokenClaims name with _ | v
  · rfl
  · dsimp only
    rw [coerceClaim_eq v d hd]
    exact rfl

end Util

/-! Fixtures used by the concrete witnesses and counterexamples below. -/

/-- Extractor with a configured profile endpoint, request headers, and a
single token claim. -/
def extTok : Util.claimExtractor :=
  ⟨some "profile-url", 0, some [], [("a", JValue.str "x")], none⟩

/-- Extractor with a configured profile endpoint and headers but no token
claims, so that every lookup misses the token claim set. -/
def extMiss : Util.claimExtractor := ⟨some "profile-url", 0, some [], [], none⟩

/-- Extractor whose profile claim set is already populated (empty). -/
def extPop : Util.claimExtractor := ⟨some "profile-url", 0, some [], [], some []⟩

/-- Extractor whose token claim set binds the empty claim name. -/
def extEmptyKey : Util.claimExtractor := ⟨none, 0, none, [("", JValue.str "x")], none⟩

/-! The claims. -/

/-- C1 (amended): over any sequence of GetClaim/GetClaimInto calls on one
extractor instance, at most one profile fetch is issued whenever the fetch
environment succeeds, and once the profile claim set is populated no call
fetches again or changes the state.  (As stated the claim is false: a
FAILED fetch is not memoized — see the counterexample — so the "fetch
failure is fatal and not retried" part does not hold of the code.) -/
theorem claim1_profile_fetch_memoized (env : Util.ProfileFetch) (c : Util.claimExtractor)
    (calls : List Util.CallSpec) :
    (∀ m, env = .ok m → (Util.runCalls env c calls).2 ≤ 1) ∧
      (∀ pm, c.profileClaims = some pm → Util.runCalls env c calls = (c, 0)) := by
  constructor
  · intro m hm
    subst hm
    have h1 := Util.runCalls_fetches_ok m calls c
    have h2 := Util.potential_le_one c
    omega
  · intro pm h
    exact Util.runCalls_populated env calls c pm h

/-- C1 counterexample: when the profile fetch fails, the failure is NOT
memoized — a second lookup that misses the token claims issues a second
network fetch, so two fetches are issued over the two-call sequence and the
later lookup retries (and re-fails) rather than being short-circuited. -/
theorem claim1_counterexample :
    (Util.runCalls (.error "boom") extMiss [.get "a", .get "b"]).2 = 2 ∧
      (Util.GetClaim (.error "boom") extMiss "a").err =
        some "failed to fetch claims from profile URL: error making request to profile URL: boom" ∧
      (Util.GetClaim (.error "boom") extMiss "a").ext = extMiss ∧
      (Util.GetClaim (.error "boom")
        (Util.GetClaim (.error "boom") extMiss "a").ext "b").fetches = 1 :=
  ⟨rfl, rfl, rfl, rfl⟩

/-- C1 witness: a successful environment yields at most one fetch over a
three-call sequence of distinct misses, and a populated extractor is left
untouched with zero fetches. -/
theorem claim1_witness :
    (Util.runCalls (.ok [("b", JValue.num 1)]) extMiss [.get "b", .get "c", .get "d"]).2 ≤ 1 ∧
      Util.runCalls (.error "boom") extPop [.get "x"] = (extPop, 0) :=
  ⟨(claim1_profile_fetch_memoized (.ok [("b", JValue.num 1)]) extMiss
      [.get "b", .get "c", .get "d"]).1 _ rfl,
    (claim1_profile_fetch_memoized (.error "boom") extPop [.get "x"]).2 [] rfl⟩

/-- C2 (amended: the claim name must be non-empty, since `GetClaim` returns
not-found for the empty name even when the token claim set binds it): a
claim present in the token claim set is returned as-is with found=true and
no error, with no profile consultation, no fetch, and no state change. -/
theorem claim2_token_precedence (env : Util.ProfileFetch) (c : Util.claimExtractor)
    (name : String) (v : JValue) (hname : name ≠ "")
    (hv : lookupClaim c.tokenClaims name = some v) :
    Util.GetClaim env c name = ⟨some v, true, none, c, 0⟩ :=
  Util.GetClaim_token_hit env c name v hname hv

/-- C2 counterexample: a token claim named by the empty string is present
in the token claim set, yet `GetClaim` reports not-found for it. -/
theorem claim2_counterexample :
    lookupClaim extEmptyKey.tokenClaims "" = some (JValue.str "x") ∧
      (Util.GetClaim (.ok []) extEmptyKey "").found = false ∧
      (Util.GetClaim (.ok []) extEmptyKey "").value = none :=
  ⟨rfl, rfl, rfl⟩

/-- C2 witness: a present token claim is returned unchanged even under a
failing fetch environment (so the profile was never consulted). -/
theorem claim2_witness :
    Util.GetClaim (.error "boom") extTok "a" = ⟨some (JValue.str "x"), true, none, extTok, 0⟩ :=
  claim2_token_precedence (.error "boom") extTok "a" (JValue.str "x") (by decide) rfl

/-- C5: with no profile endpoint configured, or no request headers
available, a lookup of any claim name absent from the token claims returns
not-found with no error and issues no network fetch (the profile behaves as
an empty mapping).  The `profileClaims` hypothesis covers both the fresh
state and the state after such a lookup already populated the empty
mapping. -/
theorem claim5_no_endpoint_not_found (env : Util.ProfileFetch) (c : Util.claimExtractor)
    (name : String)
    (hskip : c.profileURL = none ∨ c.requestHeaders = none)
    (hfresh : c.profileClaims = none ∨ c.profileClaims = some [])
    (hmiss : lookupClaim c.tokenClaims name = none) :
    (Util.GetClaim env c name).value = none ∧ (Util.GetClaim env c name).found = false ∧
      (Util.GetClaim env c name).err = none ∧ (Util.GetClaim env c name).fetches = 0 := by
  by_cases hname : name = ""
  · subst hname
    rw [Util.GetClaim_empty]
    exact ⟨rfl, rfl, rfl, rfl⟩
  · unfold Util.GetClaim
    rw [if_neg hname]
    simp only [hmiss]
    rcases hfresh with hfresh | hfresh
    · simp only [hfresh, Util.getProfileClaims_skip env c hskip]
      exact ⟨rfl, rfl, rfl, rfl⟩
    · simp only [hfresh]
      exact ⟨rfl, rfl, rfl, rfl⟩

/-- C5 witness: an extractor with no profile URL (and one with no request
headers) answers a miss with not-found, no error and zero fetches. -/
theorem claim5_witness :
    (Util.GetClaim (.error "boom") extEmptyKey "missing").value = none ∧
      (Util.GetClaim (.error "boom") extEmptyKey "missing").found = false ∧
      (Util.GetClaim (.error "boom") extEmptyKey "missing").err = none ∧
      (Util.GetClaim (.error "boom") extEmptyKey "missing").fetches = 0 :=
  claim5_no_endpoint_not_found (.error "boom") extEmptyKey "missing"
    (Or.inl rfl) (Or.inl rfl) rfl

/-- C9: the empty claim name is answered (nil, false, nil) immediately:
the extractor state is returned unchanged whatever the claim sets hold, and
no fetch is issued. -/
theorem claim9_empty_claim_name (env : Util.ProfileFetch) (c : Util.claimExtractor) :
    Util.GetClaim env c "" = ⟨none, false, none, c, 0⟩ := rfl

/-- C10: `GetClaim` and `GetClaimInto` leave the token claim set, profile
URL, request headers and context untouched; the only mutable field is the
profile claim set, which moves at most from unpopulated to some fetched
mapping ( `GetClaimInto`'s only other output is the returned destination). -/
theorem claim10_frame (env : Util.ProfileFetch) (c : Util.claimExtractor)
    (name : String) (d : Util.Dst) :
    ((Util.GetClaim env c name).ext.profileURL = c.profileURL ∧
      (Util.GetClaim env c name).ext.requestHeaders = c.requestHeaders ∧
      (Util.GetClaim env c name).ext.tokenClaims = c.tokenClaims ∧
      (Util.GetClaim env c name).ext.ctx = c.ctx ∧
      ((Util.GetClaim env c name).ext.profileClaims = c.profileClaims ∨
        (c.profileClaims = none ∧
          ∃ m, (Util.GetClaim env c name).ext.profileClaims = some m))) ∧
    ((Util.GetClaimInto env c name d).ext.profileURL = c.profileURL ∧
      (Util.GetClaimInto env c name d).ext.requestHeaders = c.requestHeaders ∧
      (Util.GetClaimInto env c name d).ext.tokenClaims = c.tokenClaims ∧
      (Util.GetClaimInto env c name d).ext.ctx = c.ctx ∧
      ((Util.GetClaimInto env c name d).ext.profileClaims = c.profileClaims ∨
        (c.profileClaims = none ∧
          ∃ m, (Util.GetClaimInto env c name d).ext.profileClaims = some m))) := by
  have hd := (Util.GetClaimInto_ext_fetches env c name d).1
  constructor
  · rcases Util.GetClaim_ext_cases env c name with h | ⟨hpc, m, h⟩
    · rw [h]
      exact ⟨rfl, rfl, rfl, rfl, Or.inl rfl⟩
    · rw [h]
      exact ⟨rfl, rfl, rfl, rfl, Or.inr ⟨hpc, m, rfl⟩⟩
  · rw [hd]
    rcases Util.GetClaim_ext_cases env c name with h | ⟨hpc, m, h⟩
    · rw [h]
      exact ⟨rfl, rfl, rfl, rfl, Or.inl rfl⟩
    · rw [h]
      exact ⟨rfl, rfl, rfl, rfl, Or.inr ⟨hpc, m, rfl⟩⟩

/-- Provider fixture: no profile endpoint, unverified e-mails not allowed,
the standard `email` claim configured, `groups` as the groups claim. -/
def pStd : Providers.ProviderData :=
  ⟨none, "client-id", "", "", false, "email", "groups", none⟩

/-- Provider fixture whose client secret must be read from a file. -/
def pFile : Providers.ProviderData :=
  ⟨none, "client-id", "", "secret-file", false, "email", "groups", none⟩

/-- File system fixture on which every read fails. -/
def fsFail : String → Option String := fun _ => none

/-- C8: whenever the client-secret file read fails, `GetClientSecret`
returns the one fixed generic error message, identical across all provider
configurations and file systems (so independent of, and not containing, the
file name or its contents). -/
theorem claim8_client_secret_generic_error (p1 p2 : Providers.ProviderData)
    (rf1 rf2 : String → Option String)
    (h1s : p1.ClientSecret = "") (h1f : p1.ClientSecretFile ≠ "")
    (h1r : rf1 p1.ClientSecretFile = none)
    (h2s : p2.ClientSecret = "") (h2f : p2.ClientSecretFile ≠ "")
    (h2r : rf2 p2.ClientSecretFile = none) :
    p1.GetClientSecret rf1 = .error "could not read client secret file" ∧
      p1.GetClientSecret rf1 = p2.GetClientSecret rf2 := by
  have gen : ∀ (p : Providers.ProviderData) (rf : String → Option String),
      p.ClientSecret = "" → p.ClientSecretFile ≠ "" → rf p.ClientSecretFile = none →
      p.GetClientSecret rf = .error "could not read client secret file" := by
    intro p rf hs hf hr
    unfold Providers.ProviderData.GetClientSecret
    rw [if_neg (by simp [hs, hf]), hr]
  have e1 := gen p1 rf1 h1s h1f h1r
  have e2 := gen p2 rf2 h2s h2f h2r
  exact ⟨e1, e1.trans e2.symm⟩

/-- C8 witness: a provider whose secret file cannot be read gets the fixed
generic error, and the same error as a second failing configuration with a
different file name. -/
theorem claim8_witness :
    Providers.ProviderData.GetClientSecret pFile fsFail =
        .error "could not read client secret file" ∧
      Providers.ProviderData.GetClientSecret pFile fsFail =
        Providers.ProviderData.GetClientSecret
          ⟨none, "x", "", "other-file", true, "", "", none⟩ fsFail :=
  claim8_client_secret_generic_error pFile ⟨none, "x", "", "other-file", true, "", "", none⟩
    fsFail fsFail rfl (by decide) rfl rfl (by decide) rfl

/-- C4: the nonce check extracts the token's `nonce` claim as a string and
compares it exactly with the session's stored nonce — equal nonces succeed,
different nonces produce the hard nonce-mismatch error. -/
theorem claim4_nonce_check (p : Providers.ProviderData) (s : Sessions.SessionState)
    (env : Util.ProfileFetch) (tc : List (String × JValue)) (n : String)
    (hn : lookupClaim tc "nonce" = some (JValue.str n)) :
    p.checkNonce s env tc =
      if s.Nonce = n then .ok ()
      else .error "id_token nonce claim does not match the session nonce" := by
  unfold Providers.ProviderData.checkNonce
  have hg : Util.GetClaim env (p.getClaimExtractor tc "") "nonce" =
      ⟨some (JValue.str n), true, none, p.getClaimExtractor tc "", 0⟩ :=
    Util.GetClaim_token_hit env _ "nonce" _ (by decide) hn
  unfold Util.GetClaimInto
  dsimp only
  rw [hg]
  dsimp only
  rw [coerceClaim_eq (JValue.str n) (Util.Dst.str "") (by simp)]
  by_cases h : s.Nonce = n
  · simp [h, Sessions.SessionState.CheckNonce, newDst, Util.Dst.getStr, toStr,
      Util.toString, Cast.ToStringE]
  · simp [h, Sessions.SessionState.CheckNonce, newDst, Util.Dst.getStr, toStr,
      Util.toString, Cast.ToStringE]

/-- C4 witness: stored nonce "abc123" against token nonce claim "abc123"
succeeds; the same stored nonce against token nonce claim "xyz" fails with
the nonce-mismatch error. -/
theorem claim4_witness :
    Providers.ProviderData.checkNonce pStd ⟨"", "", [], "", "abc123"⟩ (.ok [])
        [("nonce", JValue.str "abc123")] = .ok () ∧
      Providers.ProviderData.checkNonce pStd ⟨"", "", [], "", "abc123"⟩ (.ok [])
        [("nonce", JValue.str "xyz")] =
        .error "id_token nonce claim does not match the session nonce" :=
  ⟨(claim4_nonce_check pStd ⟨"", "", [], "", "abc123"⟩ (.ok [])
      [("nonce", JValue.str "abc123")] "abc123" rfl).trans (by rfl),
    (claim4_nonce_check pStd ⟨"", "", [], "", "abc123"⟩ (.ok [])
      [("nonce", JValue.str "xyz")] "xyz" rfl).trans (by rfl)⟩

/-- C7 (amended: the single value must also not be JSON null — a nil
interface value falls through the Go type switch to the `default` arm and
becomes the EMPTY slice, see the counterexample): every non-null, non-list
value coerces via toStringSlice to the one-element list holding exactly its
toString form, and the empty list coerces to the empty list. -/
theorem claim7_scalar_to_string_list :
    (∀ v : JValue, v ≠ JValue.null → (∀ xs, v ≠ JValue.arr xs) →
      Util.toString v = .ok (toStr v) ∧ Util.toStringSlice v = .ok [toStr v]) ∧
      Util.toStringSlice (JValue.arr []) = .ok [] := by
  constructor
  · intro v hnull harr
    refine ⟨toString_eq v, ?_⟩
    cases v with
    | null => exact absurd rfl hnull
    | arr xs => exact absurd rfl (harr xs)
    | bool b => exact toStringSlice_eq _
    | num n => exact toStringSlice_eq _
    | str s => exact toStringSlice_eq _
    | obj fs => exact toStringSlice_eq _
  · rfl

/-- C7 counterexample: JSON null is a non-list scalar whose toString form
is the empty string, yet toStringSlice yields the empty list rather than
the claimed one-element list containing that form. -/
theorem claim7_counterexample :
    Util.toString JValue.null = .ok "" ∧ Util.toStringSlice JValue.null = .ok [] ∧
      Util.toStringSlice JValue.null ≠ .ok [""] := by
  refine ⟨rfl, rfl, ?_⟩
  intro h
  have h2 : (Except.ok [] : Except String (List String)) = Except.ok [""] := h
  simp at h2

/-- C7 witness: the boolean scalar true coerces to the one-element list
containing its string form. -/
theorem claim7_witness :
    Util.toString (JValue.bool true) = .ok "true" ∧
      Util.toStringSlice (JValue.bool true) = .ok ["true"] :=
  (claim7_scalar_to_string_list).1 (JValue.bool true) (by simp) (by simp)

theorem getStr_newDst (tc : List (String × JValue)) (name : String) :
    (newDst (Util.Dst.str "") (lookupClaim tc name)).getStr "" = resolveStr tc name := by
  unfold resolveStr
  cases lookupClaim tc name <;> rfl

theorem getStrList_newDst (tc : List (String × JValue)) (name : String) :
    (newDst (Util.Dst.strList []) (lookupClaim tc name)).getStrList [] =
      resolveStrList tc name := by
  unfold resolveStrList
  cases lookupClaim tc name <;> rfl

theorem getBool_newDst (tc : List (String × JValue)) (name : String) :
    (newDst (Util.Dst.bool false) (lookupClaim tc name)).getBool false =
      resolveBool tc name := by
  unfold resolveBool
  cases lookupClaim tc name <;> rfl

theorem buildSession_noProfile (p : Providers.ProviderData) (env : Util.ProfileFetch)
    (tc : List (String × JValue)) (atk : String)
    (hurl : p.ProfileURL = none) (he : p.EmailClaim ≠ "") (hg : p.GroupsClaim ≠ "") :
    p.buildSessionFromClaims env (some tc) atk =
      if ((p.EmailClaim == Providers.OIDCEmailClaim) && !p.AllowUnverifiedEmail)
          && (lookupClaim tc "email_verified").isSome
          && !(resolveBool tc "email_verified") then
        .error ("email in id_token (" ++ resolveStr tc p.EmailClaim ++ ") isn\x27t verified")
      else
        .ok ⟨resolveStr tc "sub", resolveStr tc p.EmailClaim,
          resolveStrList tc p.GroupsClaim, resolveStr tc "preferred_username", ""⟩ := by
  have hc0u : (p.getClaimExtractor tc atk).profileURL = none := hurl
  obtain ⟨c1, h1, hu1, ht1, hp1, _, _⟩ :=
    Util.GetClaimInto_noProfile env (p.getClaimExtractor tc atk) "sub" (.str "")
      hc0u (Or.inl rfl) (by decide) (by simp)
  obtain ⟨c2, h2, hu2, ht2, hp2, _, _⟩ :=
    Util.GetClaimInto_noProfile env c1 p.EmailClaim (.str "") hu1 hp1 he (by simp)
  obtain ⟨c3, h3, hu3, ht3, hp3, _, _⟩ :=
    Util.GetClaimInto_noProfile env c2 p.GroupsClaim (.strList []) hu2 hp2 hg (by simp)
  obtain ⟨c4, h4, hu4, ht4, hp4, _, _⟩ :=
    Util.GetClaimInto_noProfile env c3 "preferred_username" (.str "") hu3 hp3
      (by decide) (by simp)
  obtain ⟨c5, h5, _, _, _, _, _⟩ :=
    Util.GetClaimInto_noProfile env c4 "email_verified" (.bool false) hu4 hp4
      (by decide) (by simp)
  rw [ht1] at h2
  rw [ht2, ht1] at h3
  rw [ht3, ht2, ht1] at h4
  rw [ht4, ht3, ht2, ht1] at h5
  have htc : (p.getClaimExtractor tc atk).tokenClaims = tc := rfl
  rw [htc] at h1 h2 h3 h4 h5
  unfold Providers.ProviderData.buildSessionFromClaims
  dsimp only
  rw [h1]
  dsimp only
  rw [h2]
  dsimp only
  rw [h3]
  dsimp only
  rw [h4]
  dsimp only
  rw [h5]
  dsimp only
  rw [getStr_newDst tc "sub", getStr_newDst tc p.EmailClaim,
    getStrList_newDst tc p.GroupsClaim, getStr_newDst tc "preferred_username",
    getBool_newDst tc "email_verified"]

/-- C3: with the standard `email` claim configured, unverified e-mails not
allowed, and no profile endpoint (so no lookup can fail), session assembly
fails with the "email not verified" error carrying the resolved e-mail
exactly when the `email_verified` claim is present and coerces to false;
when the claim is absent (or coerces to true) assembly succeeds with the
populated session.  The groups-claim hypotheses keep the four looked-up
names distinct, so the fixed lookup order of the model agrees with every
iteration order of the Go map literal. -/
theorem claim3_email_verification (p : Providers.ProviderData) (env : Util.ProfileFetch)
    (tc : List (String × JValue)) (atk : String)
    (hurl : p.ProfileURL = none)
    (hemail : p.EmailClaim = "email")
    (hallow : p.AllowUnverifiedEmail = false)
    (hg1 : p.GroupsClaim ≠ "") (_hg2 : p.GroupsClaim ≠ "sub")
    (_hg3 : p.GroupsClaim ≠ "email") (_hg4 : p.GroupsClaim ≠ "preferred_username") :
    (∀ v, lookupClaim tc "email_verified" = some v → Cast.ToBool v = false →
        p.buildSessionFromClaims env (some tc) atk =
          .error ("email in id_token (" ++ resolveStr tc "email" ++ ") isn\x27t verified")) ∧
      (∀ v, lookupClaim tc "email_verified" = some v → Cast.ToBool v = true →
        p.buildSessionFromClaims env (some tc) atk =
          .ok ⟨resolveStr tc "sub", resolveStr tc "email",
            resolveStrList tc p.GroupsClaim, resolveStr tc "preferred_username", ""⟩) ∧
      (lookupClaim tc "email_verified" = none →
        p.buildSessionFromClaims env (some tc) atk =
          .ok ⟨resolveStr tc "sub", resolveStr tc "email",
            resolveStrList tc p.GroupsClaim, resolveStr tc "preferred_username", ""⟩) := by
  have heval := buildSession_noProfile p env tc atk hurl (by rw [hemail]; decide) hg1
  rw [hemail] at heval
  refine ⟨?_, ?_, ?_⟩
  · intro v hv hb
    rw [heval, if_pos]
    simp only [resolveBool, hv, hb, hallow, Providers.OIDCEmailClaim]
    rfl
  · intro v hv hb
    rw [heval, if_neg]
    simp only [resolveBool, hv, hb, hallow, Providers.OIDCEmailClaim]
    simp
  · intro hv
    rw [heval, if_neg]
    simp only [resolveBool, hv, hallow, Providers.OIDCEmailClaim]
    simp

/-- Token claim fixture from the spec's worked example: subject `u1`,
e-mail `a@example.com`, explicitly unverified, two groups. -/
def tcUnverified : List (String × JValue) :=
  [("sub", JValue.str "u1"), ("email", JValue.str "a@example.com"),
    ("email_verified", JValue.bool false),
    ("groups", JValue.arr [JValue.str "g1", JValue.str "g2"])]

/-- Same claims with `email_verified` omitted entirely. -/
def tcNoVerified : List (String × JValue) :=
  [("sub", JValue.str "u1"), ("email", JValue.str "a@example.com"),
    ("groups", JValue.arr [JValue.str "g1", JValue.str "g2"])]

/-- C3 witness: the spec's example claims with `email_verified:false` fail
with the exact error carrying the resolved e-mail, and with the claim
omitted assembly succeeds with the fully populated session. -/
theorem claim3_witness :
    Providers.ProviderData.buildSessionFromClaims pStd (.ok []) (some tcUnverified) "" =
        .error "email in id_token (a@example.com) isn\x27t verified" ∧
      Providers.ProviderData.buildSessionFromClaims pStd (.ok []) (some tcNoVerified) "" =
        .ok ⟨"u1", "a@example.com", ["g1", "g2"], "", ""⟩ :=
  ⟨(claim3_email_verification pStd (.ok []) tcUnverified "" rfl rfl rfl
      (by decide) (by decide) (by decide) (by decide)).1 (JValue.bool false) rfl rfl,
    ((claim3_email_verification pStd (.ok []) tcNoVerified "" rfl rfl rfl
      (by decide) (by decide) (by decide) (by decide)).2.2 rfl)⟩

/-! Verified decoding of the printed JSON: digits. -/

theorem digitChar_isDigit : ∀ k, k < 10 → (digitChar k).isDigit = true := by decide

theorem digitChar_toNat : ∀ k, k < 10 → (digitChar k).toNat = 48 + k := by decide

theorem natChars_ne_nil (n : Nat) : natChars n ≠ [] := by
  rw [natChars.eq_def]
  split <;> simp

theorem natChars_digits (n : Nat) : ∀ c ∈ natChars n, c.isDigit = true := by
  induction n using Nat.strong_induction_on with
  | _ n ih =>
    rw [natChars.eq_def]
    split
    · rename_i h
      intro c hc
      rw [List.mem_singleton] at hc
      subst hc
      exact digitChar_isDigit n h
    · rename_i h
      intro c hc
      rw [List.mem_append, List.mem_singleton] at hc
      rcases hc with hc | hc
      · exact ih (n / 10) (Nat.div_lt_self (by omega) (by omega)) c hc
      · subst hc
        exact digitChar_isDigit (n % 10) (Nat.mod_lt _ (by omega))

theorem parseNatGo_append (ds : List Char) (rest : List Char) (acc : Nat)
    (h : ∀ c ∈ ds, c.isDigit = true) :
    parseNatGo acc (ds ++ rest) =
      parseNatGo (ds.foldl (fun a c => a * 10 + (c.toNat - 48)) acc) rest := by
  induction ds generalizing acc with
  | nil => rfl
  | cons c ds ih =>
    have hc := h c (List.mem_cons_self c ds)
    simp only [List.cons_append, parseNatGo, hc, if_true, List.foldl]
    exact ih _ (fun c hc2 => h c (List.mem_cons_of_mem _ hc2))

theorem parseNatGo_stop (rest : List Char) (acc : Nat) (h : digitStart rest = false) :
    parseNatGo acc rest = (acc, rest) := by
  cases rest with
  | nil => rfl
  | cons c cs =>
    simp only [digitStart] at h
    simp [parseNatGo, h]

theorem foldl_digits_natChars (n : Nat) : ∀ acc,
    (natChars n).foldl (fun a c => a * 10 + (c.toNat - 48)) acc =
      acc * 10 ^ (natChars n).length + n := by
  induction n using Nat.strong_induction_on with
  | _ n ih =>
    intro acc
    rw [natChars.eq_def]
    split
    · rename_i h
      simp only [List.foldl, List.length_singleton, digitChar_toNat n h, pow_one]
      omega
    · rename_i h
      rw [List.foldl_append, ih (n / 10) (Nat.div_lt_self (by omega) (by omega)) acc]
      simp only [List.foldl, List.length_append, List.length_singleton,
        digitChar_toNat (n % 10) (Nat.mod_lt _ (by omega))]
      have hdm : n / 10 * 10 + n % 10 = n := by omega
      calc (acc * 10 ^ (natChars (n / 10)).length + n / 10) * 10 + (48 + n % 10 - 48)
          = acc * (10 ^ (natChars (n / 10)).length * 10) + (n / 10 * 10 + n % 10) := by ring_nf; omega
        _ = acc * 10 ^ ((natChars (n / 10)).length + 1) + n := by rw [hdm, pow_succ]

theorem parseNatGo_natChars (n : Nat) (rest : List Char) (h : digitStart rest = false) :
    parseNatGo 0 (natChars n ++ rest) = (n, rest) := by
  rw [parseNatGo_append _ _ _ (natChars_digits n), foldl_digits_natChars n 0,
    parseNatGo_stop _ _ h]
  simp

theorem natChars_head (n : Nat) :
    ∃ c cs, natChars n = c :: cs ∧ c.isDigit = true := by
  rcases hn : natChars n with _ | ⟨c, cs⟩
  · exact absurd hn (natChars_ne_nil n)
  · exact ⟨c, cs, rfl, natChars_digits n c (by rw [hn]; exact List.mem_cons_self c cs)⟩

/-! Verified decoding of the printed JSON: string literals. -/

theorem parseHexDigit_hexChar : ∀ k, k < 16 → parseHexDigit (hexChar k) = some k := by decide

theorem escChar_toNat_lt (c : Char)
    (h : c.toNat < 32 ∨ c = '<' ∨ c = '>' ∨ c = '&' ∨ c.toNat = 8232 ∨ c.toNat = 8233) :
    c.toNat < 65536 := by
  rcases h with h | h | h | h | h | h
  · omega
  · subst h; decide
  · subst h; decide
  · subst h; decide
  · omega
  · omega

theorem escChar_roundtrip (c : Char) (rest : List Char) :
    parseStringRest (escChar c ++ rest) =
      match parseStringRest rest with
      | some p => some (c :: p.1, p.2)
      | none => none := by
  rcases hp : parseStringRest rest with _ | p <;>
  · unfold escChar
    split
    · rename_i h; subst h
      rw [parseStringRest.eq_def]
      simp +decide [unescSimple, hp]
    · split
      · rename_i h; subst h
        rw [parseStringRest.eq_def]
        simp +decide [unescSimple, hp]
      · split
        · rename_i h; subst h
          rw [parseStringRest.eq_def]
          simp +decide [unescSimple, hp]
        · split
          · rename_i h; subst h
            rw [parseStringRest.eq_def]
            simp +decide [unescSimple, hp]
          · split
            · rename_i h; subst h
              rw [parseStringRest.eq_def]
              simp +decide [unescSimple, hp]
            · split
              · rename_i hcls
                have h16 := escChar_toNat_lt c hcls
                have k1 : c.toNat / 4096 % 16 < 16 := Nat.mod_lt _ (by omega)
                have k2 : c.toNat / 256 % 16 < 16 := Nat.mod_lt _ (by omega)
                have k3 : c.toNat / 16 % 16 < 16 := Nat.mod_lt _ (by omega)
                have k4 : c.toNat % 16 < 16 := Nat.mod_lt _ (by omega)
                have hsum : c.toNat / 4096 % 16 * 4096 + c.toNat / 256 % 16 * 256 +
                    c.toNat / 16 % 16 * 16 + c.toNat % 16 = c.toNat := by omega
                rw [parseStringRest.eq_def]
                simp +decide [hex4,
                  parseHexDigit_hexChar _ k1, parseHexDigit_hexChar _ k2,
                  parseHexDigit_hexChar _ k3, parseHexDigit_hexChar _ k4, hp,
                  hsum, Char.ofNat_toNat]
              · rename_i h1 h2 h3 h4 h5 h6
                rw [parseStringRest.eq_def]
                simp [h1, h2, hp]

theorem escString_roundtrip (s : List Char) (rest : List Char) :
    parseStringRest (escString s ++ '"' :: rest) = some (s, rest) := by
  induction s with
  | nil =>
    show parseStringRest ('"' :: rest) = some ([], rest)
    rw [parseStringRest.eq_def]
    simp
  | cons c cs ih =>
    have h := escChar_roundtrip c (escString cs ++ '"' :: rest)
    simp only [escString, List.append_assoc] at h ⊢
    rw [h, ih]

/-! Fuel measure for the decoder and unfolding equations for the printer. -/

mutual

/-- Number of parser steps needed for a value (fuel lower bound). -/
def jsize : JValue → Nat
  | .null => 1
  | .bool _ => 1
  | .num _ => 1
  | .str _ => 1
  | .arr xs => 1 + jsizeL xs
  | .obj fs => 1 + jsizeF fs
termination_by v => sizeOf v

/-- Fuel lower bound for a list of array elements. -/
def jsizeL : List JValue → Nat
  | [] => 0
  | x :: xs => 1 + jsize x + jsizeL xs
termination_by l => sizeOf l

/-- Fuel lower bound for a list of object members. -/
def jsizeF : List (String × JValue) → Nat
  | [] => 0
  | (_, v) :: fs => 1 + jsize v + jsizeF fs
termination_by l => sizeOf l

end

theorem jsize_null : jsize .null = 1 := by rw [jsize.eq_def]

theorem jsize_bool (b : Bool) : jsize (.bool b) = 1 := by rw [jsize.eq_def]

theorem jsize_num (n : Int) : jsize (.num n) = 1 := by rw [jsize.eq_def]

theorem jsize_str (s : String) : jsize (.str s) = 1 := by rw [jsize.eq_def]

theorem jsize_arr (xs : List JValue) : jsize (.arr xs) = 1 + jsizeL xs := by
  rw [jsize.eq_def]

theorem jsize_obj (fs : List (String × JValue)) : jsize (.obj fs) = 1 + jsizeF fs := by
  rw [jsize.eq_def]

theorem jsizeL_nil : jsizeL [] = 0 := by rw [jsizeL.eq_def]

theorem jsizeL_cons (x : JValue) (xs : List JValue) :
    jsizeL (x :: xs) = 1 + jsize x + jsizeL xs := by rw [jsizeL.eq_def]

theorem jsizeF_nil : jsizeF [] = 0 := by rw [jsizeF.eq_def]

theorem jsizeF_cons (k : String) (v : JValue) (fs : List (String × JValue)) :
    jsizeF ((k, v) :: fs) = 1 + jsize v + jsizeF fs := by rw [jsizeF.eq_def]

theorem printChars_null : printChars .null = ['n', 'u', 'l', 'l'] := by
  rw [printChars.eq_def]; rfl

theorem printChars_true : printChars (.bool true) = ['t', 'r', 'u', 'e'] := by
  rw [printChars.eq_def]; rfl

theorem printChars_false : printChars (.bool false) = ['f', 'a', 'l', 's', 'e'] := by
  rw [printChars.eq_def]; rfl

theorem printChars_num (n : Int) : printChars (.num n) = intChars n := by
  rw [printChars.eq_def]

theorem printChars_str (s : String) :
    printChars (.str s) = '"' :: (escString s.data ++ ['"']) := by
  rw [printChars.eq_def]

theorem printChars_arr_nil : printChars (.arr []) = ['[', ']'] := by
  rw [printChars.eq_def]

theorem printChars_arr_cons (x : JValue) (xs : List JValue) :
    printChars (.arr (x :: xs)) = '[' :: (printElems (x :: xs) ++ [']']) := by
  rw [printChars.eq_def]

theorem printChars_obj_nil : printChars (.obj []) = [lbrace, rbrace] := by
  rw [printChars.eq_def]

theorem printChars_obj_cons (f : String × JValue) (fs : List (String × JValue)) :
    printChars (.obj (f :: fs)) = lbrace :: (printMembers (f :: fs) ++ [rbrace]) := by
  rw [printChars.eq_def]

theorem printElems_single (x : JValue) : printElems [x] = printChars x := by
  rw [printElems.eq_def]

theorem printElems_cons (x y : JValue) (xs : List JValue) :
    printElems (x :: y :: xs) = printChars x ++ ',' :: printElems (y :: xs) := by
  rw [printElems.eq_def]

theorem printMembers_single (k : String) (v : JValue) :
    printMembers [(k, v)] = keyChars k ++ ':' :: printChars v := by
  rw [printMembers.eq_def]

theorem printMembers_cons (k : String) (v : JValue) (m : String × JValue)
    (ms : List (String × JValue)) :
    printMembers ((k, v) :: m :: ms) =
      keyChars k ++ ':' :: printChars v ++ ',' :: printMembers (m :: ms) := by
  rw [printMembers.eq_def]

theorem isDigit_ne (c : Char) (h : c.isDigit = true) :
    c ≠ '"' ∧ c ≠ '[' ∧ c ≠ lbrace ∧ c ≠ '-' ∧ c ≠ ']' ∧ c ≠ rbrace := by
  refine ⟨?_, ?_, ?_, ?_, ?_, ?_⟩ <;> (intro he; subst he; exact absurd h (by decide))

theorem intChars_head (n : Int) :
    ∃ c cs, intChars n = c :: cs ∧ (c.isDigit = true ∨ c = '-') := by
  unfold intChars
  split
  · exact ⟨'-', _, rfl, Or.inr rfl⟩
  · obtain ⟨c, cs, hc, hd⟩ := natChars_head n.toNat
    exact ⟨c, cs, hc, Or.inl hd⟩

theorem printChars_head (w : JValue) : ∃ c cs, printChars w = c :: cs ∧ c ≠ ']' := by
  cases w with
  | null => exact ⟨'n', _, printChars_null, by decide⟩
  | bool b =>
    cases b with
    | true => exact ⟨'t', _, printChars_true, by decide⟩
    | false => exact ⟨'f', _, printChars_false, by decide⟩
  | num n =>
    obtain ⟨c, cs, hc, hd⟩ := intChars_head n
    refine ⟨c, cs, by rw [printChars_num, hc], ?_⟩
    rcases hd with hd | hd
    · exact (isDigit_ne c hd).2.2.2.2.1
    · subst hd; decide
  | str s => exact ⟨'"', _, printChars_str s, by decide⟩
  | arr xs =>
    cases xs with
    | nil => exact ⟨'[', _, printChars_arr_nil, by decide⟩
    | cons x xs => exact ⟨'[', _, printChars_arr_cons x xs, by decide⟩
  | obj fs =>
    cases fs with
    | nil => exact ⟨lbrace, _, printChars_obj_nil, by decide⟩
    | cons f fs => exact ⟨lbrace, _, printChars_obj_cons f fs, by decide⟩

theorem printElems_head (x : JValue) (xs : List JValue) :
    ∃ c cs, printElems (x :: xs) = c :: cs ∧ c ≠ ']' := by
  obtain ⟨c, cs, hc, hne⟩ := printChars_head x
  cases xs with
  | nil => exact ⟨c, cs, by rw [printElems_single, hc], hne⟩
  | cons y ys =>
    exact ⟨c, cs ++ ',' :: printElems (y :: ys),
      by rw [printElems_cons, hc, List.cons_append], hne⟩

theorem printMembers_head (f : String × JValue) (fs : List (String × JValue)) :
    ∃ cs, printMembers (f :: fs) = '"' :: cs := by
  rcases f with ⟨k, v⟩
  cases fs with
  | nil =>
    exact ⟨(escString k.data ++ ['"']) ++ ':' :: printChars v,
      by rw [printMembers_single, keyChars, List.cons_append]⟩
  | cons m ms =>
    exact ⟨(escString k.data ++ ['"']) ++ ':' :: printChars v ++ ',' :: printMembers (m :: ms),
      by rw [printMembers_cons, keyChars, List.cons_append]
         simp [List.append_assoc]⟩

theorem digitStart_cons (c : Char) (cs : List Char) : digitStart (c :: cs) = c.isDigit := rfl

theorem jsize_pos (w : JValue) : 1 ≤ jsize w := by
  cases w with
  | null => rw [jsize_null]
  | bool b => rw [jsize_bool]
  | num n => rw [jsize_num]
  | str s => rw [jsize_str]
  | arr xs => rw [jsize_arr]; omega
  | obj fs => rw [jsize_obj]; omega

mutual

/-- The decoder inverts the printer: decoding the printed form of any value
(followed by any continuation that does not start with a digit) returns the
value and the continuation, given enough fuel. -/
theorem parse_print : ∀ (w : JValue) (f : Nat) (rest : List Char),
    jsize w ≤ f → digitStart rest = false →
    parseValue f (printChars w ++ rest) = some (w, rest)
  | w, 0, _, hf, _ => by
    have := jsize_pos w
    omega
  | .null, f + 1, rest, _, _ => by
    rw [printChars_null, show ['n', 'u', 'l', 'l'] ++ rest = 'n' :: 'u' :: 'l' :: 'l' :: rest
      from rfl, parseValue.eq_3]
    simp +decide [dropLit]
  | .bool true, f + 1, rest, _, _ => by
    rw [printChars_true, show ['t', 'r', 'u', 'e'] ++ rest = 't' :: 'r' :: 'u' :: 'e' :: rest
      from rfl, parseValue.eq_3]
    simp +decide [dropLit]
  | .bool false, f + 1, rest, _, _ => by
    rw [printChars_false, show ['f', 'a', 'l', 's', 'e'] ++ rest =
      'f' :: 'a' :: 'l' :: 's' :: 'e' :: rest from rfl, parseValue.eq_3]
    simp +decide [dropLit]
  | .num n, f + 1, rest, _, hr => by
    rw [printChars_num]
    unfold intChars
    split
    · rename_i hneg
      obtain ⟨c, cs, hc, hd⟩ := natChars_head n.natAbs
      have hds : digitStart (natChars n.natAbs ++ rest) = true := by
        rw [hc, List.cons_append, digitStart_cons, hd]
      have hpn : parseNatGo 0 (natChars n.natAbs ++ rest) = (n.natAbs, rest) :=
        parseNatGo_natChars _ _ hr
      have habs : ((n.natAbs : Int)) = -n := Int.ofNat_natAbs_of_nonpos (by omega)
      rw [List.cons_append, parseValue.eq_3]
      simp +decide [hds, hpn, habs]
    · rename_i hpos
      obtain ⟨c, cs, hc, hd⟩ := natChars_head n.toNat
      have hne := isDigit_ne c hd
      have hpn : parseNatGo 0 (natChars n.toNat ++ rest) = (n.toNat, rest) :=
        parseNatGo_natChars _ _ hr
      rw [hc, List.cons_append] at hpn
      have htn : ((n.toNat : Int)) = n := Int.toNat_of_nonneg (by omega)
      rw [hc, List.cons_append, parseValue.eq_3]
      simp +decide [hne.1, hne.2.1, hne.2.2.1, hne.2.2.2.1, hd, hpn, htn]
  | .str s, f + 1, rest, _, _ => by
    rw [printChars_str, List.cons_append, parseValue.eq_3]
    have h := escString_roundtrip s.data rest
    simp +decide [List.append_assoc, List.singleton_append, h]
  | .arr [], f + 1, rest, _, _ => by
    rw [printChars_arr_nil, show ['[', ']'] ++ rest = '[' :: ']' :: rest from rfl,
      parseValue.eq_3]
    simp +decide [headIs]
  | .arr (x :: xs), f + 1, rest, hf, _ => by
    rw [jsize_arr] at hf
    obtain ⟨c, cs, hc, hcne⟩ := printElems_head x xs
    have hhead : headIs (printElems (x :: xs) ++ ']' :: rest) ']' = false := by
      rw [hc, List.cons_append]
      simp [headIs, hcne]
    have hrec : parseElems f (printElems (x :: xs) ++ ']' :: rest) = some (x :: xs, rest) :=
      parseElems_print (x :: xs) f rest (by simp) (by omega)
    rw [printChars_arr_cons, List.cons_append, parseValue.eq_3]
    simp +decide [List.append_assoc, List.singleton_append, hhead, hrec]
  | .obj [], f + 1, rest, _, _ => by
    rw [printChars_obj_nil, show [lbrace, rbrace] ++ rest = lbrace :: rbrace :: rest from rfl,
      parseValue.eq_3]
    simp +decide [headIs]
  | .obj (g :: fs), f + 1, rest, hf, _ => by
    rw [jsize_obj] at hf
    obtain ⟨cs, hc⟩ := printMembers_head g fs
    have hhead : headIs (printMembers (g :: fs) ++ rbrace :: rest) rbrace = false := by
      rw [hc, List.cons_append]
      simp +decide [headIs]
    have hrec : parseMembers f (printMembers (g :: fs) ++ rbrace :: rest) =
        some (g :: fs, rest) :=
      parseMembers_print (g :: fs) f rest (by simp) (by omega)
    rw [printChars_obj_cons, List.cons_append, parseValue.eq_3]
    simp +decide [List.append_assoc, List.singleton_append, hhead, hrec]

/-- The decoder inverts the printer on non-empty element lists followed by
the closing bracket. -/
theorem parseElems_print : ∀ (xs : List JValue) (f : Nat) (rest : List Char),
    xs ≠ [] → jsizeL xs ≤ f →
    parseElems f (printElems xs ++ ']' :: rest) = some (xs, rest)
  | [], _, _, h, _ => absurd rfl h
  | [x], 0, _, _, hsz => by
    rw [jsizeL_cons, jsizeL_nil] at hsz
    have := jsize_pos x
    omega
  | [x], f + 1, rest, _, hsz => by
    rw [jsizeL_cons, jsizeL_nil] at hsz
    rw [printElems_single, parseElems.eq_2,
      parse_print x f (']' :: rest) (by omega) (by rw [digitStart_cons]; decide)]
    simp +decide
  | x :: y :: xs, 0, _, _, hsz => by
    rw [jsizeL_cons] at hsz
    have := jsize_pos x
    omega
  | x :: y :: xs, f + 1, rest, _, hsz => by
    rw [jsizeL_cons] at hsz
    rw [printElems_cons, parseElems.eq_2, List.append_assoc, List.cons_append,
      parse_print x f (',' :: (printElems (y :: xs) ++ ']' :: rest)) (by omega)
        (by rw [digitStart_cons]; decide)]
    simp +decide [parseElems_print (y :: xs) f rest (by simp) (by omega)]

/-- The decoder inverts the printer on non-empty member lists followed by
the closing brace. -/
theorem parseMembers_print : ∀ (fs : List (String × JValue)) (f : Nat) (rest : List Char),
    fs ≠ [] → jsizeF fs ≤ f →
    parseMembers f (printMembers fs ++ rbrace :: rest) = some (fs, rest)
  | [], _, _, h, _ => absurd rfl h
  | [(k, v)], 0, _, _, hsz => by
    rw [jsizeF_cons, jsizeF_nil] at hsz
    have := jsize_pos v
    omega
  | [(k, v)], f + 1, rest, _, hsz => by
    rw [jsizeF_cons, jsizeF_nil] at hsz
    have hstr := escString_roundtrip k.data (':' :: (printChars v ++ rbrace :: rest))
    have hval := parse_print v f (rbrace :: rest) (by omega) (by rw [digitStart_cons]; decide)
    rw [printMembers_single, keyChars]
    simp only [List.cons_append, List.append_assoc, List.singleton_append, List.nil_append]
    rw [parseMembers.eq_3]
    simp +decide [hstr, hval]
  | (k, v) :: m :: ms, 0, _, _, hsz => by
    rw [jsizeF_cons] at hsz
    have := jsize_pos v
    omega
  | (k, v) :: m :: ms, f + 1, rest, _, hsz => by
    rw [jsizeF_cons] at hsz
    have hstr := escString_roundtrip k.data
      (':' :: (printChars v ++ ',' :: (printMembers (m :: ms) ++ rbrace :: rest)))
    have hval := parse_print v f (',' :: (printMembers (m :: ms) ++ rbrace :: rest))
      (by omega) (by rw [digitStart_cons]; decide)
    have hrec := parseMembers_print (m :: ms) f rest (by simp) (by omega)
    rw [printMembers_cons, keyChars]
    simp only [List.cons_append, List.append_assoc, List.singleton_append, List.nil_append]
    rw [parseMembers.eq_3]
    simp +decide [hstr, hval, hrec]

end

/-! Fuel bound: the document-level decoder's fuel (input length plus one)
is always enough for the printed form. -/

mutual

theorem jsize_le_len : ∀ w : JValue, jsize w ≤ (printChars w).length
  | .null => by rw [jsize_null, printChars_null]; decide
  | .bool true => by rw [jsize_bool, printChars_true]; decide
  | .bool false => by rw [jsize_bool, printChars_false]; decide
  | .num n => by
    rw [jsize_num, printChars_num]
    unfold intChars
    split
    · simp
    · have := List.length_pos.2 (natChars_ne_nil n.toNat)
      omega
  | .str s => by
    rw [jsize_str, printChars_str]
    simp
  | .arr [] => by rw [jsize_arr, jsizeL_nil, printChars_arr_nil]; decide
  | .arr (x :: xs) => by
    have h := jsizeL_le_len (x :: xs) (by simp)
    rw [jsize_arr, printChars_arr_cons]
    simp only [List.length_cons, List.length_append, List.length_singleton]
    omega
  | .obj [] => by rw [jsize_obj, jsizeF_nil, printChars_obj_nil]; decide
  | .obj (g :: fs) => by
    have h := jsizeF_le_len (g :: fs) (by simp)
    rw [jsize_obj, printChars_obj_cons]
    simp only [List.length_cons, List.length_append, List.length_singleton]
    omega

theorem jsizeL_le_len : ∀ xs : List JValue, xs ≠ [] → jsizeL xs ≤ 1 + (printElems xs).length
  | [], h => absurd rfl h
  | [x], _ => by
    have h := jsize_le_len x
    rw [jsizeL_cons, jsizeL_nil, printElems_single]
    omega
  | x :: y :: xs, _ => by
    have h1 := jsize_le_len x
    have h2 := jsizeL_le_len (y :: xs) (by simp)
    rw [jsizeL_cons, printElems_cons]
    simp only [List.length_append, List.length_cons]
    omega

theorem jsizeF_le_len : ∀ fs : List (String × JValue), fs ≠ [] →
    jsizeF fs ≤ 1 + (printMembers fs).length
  | [], h => absurd rfl h
  | [(k, v)], _ => by
    have h := jsize_le_len v
    rw [jsizeF_cons, jsizeF_nil, printMembers_single]
    simp only [List.length_append, List.length_cons]
    omega
  | (k, v) :: m :: ms, _ => by
    have h1 := jsize_le_len v
    have h2 := jsizeF_le_len (m :: ms) (by simp)
    rw [jsizeF_cons, printMembers_cons]
    simp only [List.length_append, List.length_cons]
    omega

end

/-- Document-level round trip: decoding the printed form of any value
returns exactly that value. -/
theorem jsonParse_print (w : JValue) : jsonParse (String.mk (printChars w)) = some w := by
  unfold jsonParse
  have hlen : jsize w ≤ (printChars w).length + 1 :=
    le_trans (jsize_le_len w) (by omega)
  have h := parse_print w ((printChars w).length + 1) [] hlen rfl
  rw [List.append_nil] at h
  show (match parseValue ((printChars w).length + 1) (printChars w) with
    | some (v, []) => some v
    | _ => none) = some w
  rw [h]

/-- Marshalling then decoding returns the canonical form. -/
theorem jsonParse_marshal (v : JValue) : jsonParse (jsonMarshal v) = some (canon v) :=
  jsonParse_print (canon v)

/-! Canonical forms are idempotent, so a value is equivalent to the decoded
canonical form of its marshalled text. -/

theorem canon_null : canon .null = .null := by rw [canon.eq_def]

theorem canon_bool (b : Bool) : canon (.bool b) = .bool b := by rw [canon.eq_def]

theorem canon_num (n : Int) : canon (.num n) = .num n := by rw [canon.eq_def]

theorem canon_str (s : String) : canon (.str s) = .str s := by rw [canon.eq_def]

theorem canon_arr (xs : List JValue) : canon (.arr xs) = .arr (canonList xs) := by
  rw [canon.eq_def]

theorem canon_obj (fs : List (String × JValue)) :
    canon (.obj fs) = .obj (List.insertionSort keyLe (canonFields fs)) := by
  rw [canon.eq_def]

theorem canonList_nil : canonList [] = [] := by rw [canonList.eq_def]

theorem canonList_cons (x : JValue) (xs : List JValue) :
    canonList (x :: xs) = canon x :: canonList xs := by rw [canonList.eq_def]

theorem canonFields_nil : canonFields [] = [] := by rw [canonFields.eq_def]

theorem canonFields_cons (k : String) (v : JValue) (fs : List (String × JValue)) :
    canonFields ((k, v) :: fs) = (k, canon v) :: canonFields fs := by
  rw [canonFields.eq_def]

theorem canonFields_eq_map (fs : List (String × JValue)) :
    canonFields fs = fs.map (fun p => (p.1, canon p.2)) := by
  induction fs with
  | nil => rw [canonFields_nil, List.map_nil]
  | cons f fs ih =>
    rcases f with ⟨k, v⟩
    rw [canonFields_cons, List.map_cons, ih]

theorem canonFields_insertionSort (l : List (String × JValue)) :
    canonFields (List.insertionSort keyLe l) = List.insertionSort keyLe (canonFields l) := by
  rw [canonFields_eq_map, canonFields_eq_map]
  exact List.map_insertionSort keyLe keyLe (fun p => (p.1, canon p.2)) l
    (fun a _ b _ => Iff.rfl)

mutual

theorem canon_idem : ∀ v : JValue, canon (canon v) = canon v
  | .null => by rw [canon_null, canon_null]
  | .bool b => by rw [canon_bool, canon_bool]
  | .num n => by rw [canon_num, canon_num]
  | .str s => by rw [canon_str, canon_str]
  | .arr xs => by rw [canon_arr, canon_arr, canonList_idem xs]
  | .obj fs => by
    rw [canon_obj, canon_obj, canonFields_insertionSort, canonFields_idem fs,
      List.Sorted.insertionSort_eq (List.sorted_insertionSort keyLe (canonFields fs))]

theorem canonList_idem : ∀ xs : List JValue, canonList (canonList xs) = canonList xs
  | [] => by rw [canonList_nil, canonList_nil]
  | x :: xs => by rw [canonList_cons, canonList_cons, canon_idem x, canonList_idem xs]

theorem canonFields_idem : ∀ fs : List (String × JValue),
    canonFields (canonFields fs) = canonFields fs
  | [] => by rw [canonFields_nil, canonFields_nil]
  | (k, v) :: fs => by
    rw [canonFields_cons, canonFields_cons, canon_idem v, canonFields_idem fs]

end

theorem jEquiv_canon (v : JValue) : jEquiv v (canon v) := (canon_idem v).symm

theorem toStr_str (s : String) : toStr (JValue.str s) = s := rfl

/-- C6: the three coercion round trips.  A string claim passes through
`toString` unchanged; a list of strings passes through `toStringSlice` as
the equal ordered list; a structured object claim passed through
`toString` yields the JSON text `json.Marshal` emits for it, which decodes
back to a structurally equivalent value (its canonical, key-sorted form). -/
theorem claim6_coercion_roundtrips :
    (∀ s, Util.toString (JValue.str s) = .ok s) ∧
      (∀ ss : List String, Util.toStringSlice (JValue.arr (ss.map JValue.str)) = .ok ss) ∧
      (∀ fs : List (String × JValue),
        Util.toString (JValue.obj fs) = .ok (jsonMarshal (JValue.obj fs)) ∧
        ∃ w, jsonParse (jsonMarshal (JValue.obj fs)) = some w ∧ jEquiv (JValue.obj fs) w) := by
  refine ⟨fun s => rfl, ?_, ?_⟩
  · intro ss
    rw [toStringSlice_eq]
    show Except.ok ((ss.map JValue.str).map toStr) = Except.ok ss
    rw [List.map_map]
    congr 1
    have hc : (toStr ∘ JValue.str) = id := funext fun s => toStr_str s
    rw [hc, List.map_id]
  · intro fs
    exact ⟨rfl, canon (JValue.obj fs), jsonParse_marshal _, jEquiv_canon _⟩
